import Mathlib

/-!
Verification development for the AI-Resume-Analyzer pipeline.

The Python sources (src/resume_parser.py, src/nlp_processor.py, src/scorer.py)
are shallowly embedded below.  Python numbers are modelled as rationals,
Python strings as `List Char` (wrapped in `String` at the API boundary),
Python regular-expression search (`re.findall`) as a small backtracking
engine with Python's leftmost, greedy, non-overlapping semantics.
Character classes are modelled at their ASCII meaning, matching the
ASCII inputs the patterns are written for.
-/

namespace RA

/-- Python `\s` (ASCII range): space, tab, newline, carriage return,
vertical tab, form feed. -/
def isPySpace (c : Char) : Bool :=
  c == ' ' || c == '\t' || c == '\n' || c == '\r' || c == '\x0b' || c == '\x0c'

/-- ASCII decimal digit, Python `\d`. -/
def isPyDigit (c : Char) : Bool := '0' ≤ c && c ≤ '9'

/-- ASCII letter. -/
def isPyAlpha (c : Char) : Bool := ('a' ≤ c && c ≤ 'z') || ('A' ≤ c && c ≤ 'Z')

/-- ASCII alphanumeric. -/
def isPyAlnum (c : Char) : Bool := isPyAlpha c || isPyDigit c

/-- Python `\w` (ASCII): alphanumeric or underscore. -/
def isPyWord (c : Char) : Bool := isPyAlnum c || c == '_'

/-- Characters kept by `clean_text`'s stripping step
`re.sub(r'[^\w\s@.\-_+()]', ' ', text)`. -/
def isKept (c : Char) : Bool :=
  isPyWord c || isPySpace c || c == '@' || c == '.' || c == '-' ||
  c == '+' || c == '(' || c == ')'

/-- ASCII lower-casing of one character (Python `str.lower` on ASCII input). -/
def lowerC (c : Char) : Char := c.toLower

/-- ASCII lower-casing of a character list. -/
def lowerL (s : List Char) : List Char := s.map lowerC

/-- Boolean test that `pat` is an initial segment of `s`. -/
def leadsWith : List Char → List Char → Bool
  | [], _ => true
  | _ :: _, [] => false
  | p :: ps, c :: cs => p == c && leadsWith ps cs

/-- Boolean substring test, Python's `pat in s`. -/
def occursIn (pat : List Char) : List Char → Bool
  | [] => leadsWith pat []
  | c :: t => leadsWith pat (c :: t) || occursIn pat (t)

/-- One-state whitespace-run squeezer.  With `P` a class of characters, a
maximal run of `P`-characters is emitted as a single `' '`; `st` records
whether the previous character belonged to such a run.  `squeezeGo isPySpace
false` is Python's `re.sub(r'\s+', ' ', ·)` and `squeezeGo (· == ' ') false`
is `re.sub(r' +', ' ', ·)`. -/
def squeezeGo (P : Char → Bool) : Bool → List Char → List Char
  | _, [] => []
  | st, c :: t =>
    if P c then
      if st then squeezeGo P true t else ' ' :: squeezeGo P true t
    else c :: squeezeGo P false t

/-- Python `re.sub(r'\s+', ' ', s)`. -/
def collapseWs (s : List Char) : List Char := squeezeGo isPySpace false s

/-- Python `re.sub(r' +', ' ', s)`. -/
def collapseSp (s : List Char) : List Char := squeezeGo (· == ' ') false s

/-- Python `re.sub(r'[^\w\s@.\-_+()]', ' ', s)`: every non-kept character
becomes a single space. -/
def stripChars (s : List Char) : List Char :=
  s.map (fun c => if isKept c then c else ' ')

/-- Python `str.lstrip()` for whitespace. -/
def trimLeft (s : List Char) : List Char := s.dropWhile isPySpace

/-- Python `str.strip()` for whitespace. -/
def trimBoth (s : List Char) : List Char :=
  ((trimLeft s).reverse.dropWhile isPySpace).reverse

/-- Python `str.replace`, scanning left to right, non-overlapping.  When a
match is found at the current position, `skip` pending characters of the
match remain to be dropped while the scan walks the list structurally. -/
def replGo (needle repl : List Char) : Nat → List Char → List Char
  | _, [] => []
  | k + 1, _ :: t => replGo needle repl k t
  | 0, c :: t =>
    if leadsWith needle (c :: t) then
      repl ++ replGo needle repl (needle.length - 1) t
    else
      c :: replGo needle repl 0 t

/-- Python `str.replace(needle, repl)` (replace every occurrence).  The
needles arising in the embedded code are never empty; for an empty needle we
return the text unchanged. -/
def replaceAll (needle repl s : List Char) : List Char :=
  match needle with
  | [] => s
  | _ :: _ => replGo needle repl 0 s

/-- Decimal digits of a natural number (worker, structurally recursive on a
fuel that dominates the number of digits). -/
def natToCharsGo (fuel : Nat) (n : Nat) : List Char :=
  match fuel with
  | 0 => []
  | fuel + 1 =>
    if n < 10 then [Char.ofNat (48 + n)]
    else natToCharsGo fuel (n / 10) ++ [Char.ofNat (48 + n % 10)]

/-- Decimal digits of a natural number, as characters (Python `str(n)`). -/
def natToChars (n : Nat) : List Char := natToCharsGo (n + 1) n

/-- Numeric value of a digit string (Python `int(s)` for digit-only `s`). -/
def digitsVal (s : List Char) : Nat :=
  s.foldl (fun a c => a * 10 + (c.toNat - 48)) 0

/-- Python `str.isdigit()` (ASCII): non-empty and all decimal digits. -/
def allDigits (s : List Char) : Bool :=
  !s.isEmpty && s.all isPyDigit

/-! ### A small regular-expression engine

The engine reproduces the semantics the embedded patterns rely on: leftmost
match, greedy quantifiers with backtracking, non-overlapping `findall`,
capturing groups in opening order, and word boundaries `\b` computed from
the actual neighbouring characters.  `mrun` returns every way a pattern can
match a prefix of the input, in Python's backtracking priority order; the
head of the list is the match Python commits to. -/

/-- One match outcome: the input left over, the character immediately before
it (for `\b` at the next position), and the captured groups so far. -/
structure MOut where
  prev : Option Char
  rest : List Char
  caps : List (List Char)
deriving Repr, DecidableEq

/-- Regular-expression abstract syntax, covering exactly the constructs used
by the patterns in the repository. -/
inductive RE where
  /-- literal string, case-sensitive -/
  | lit (cs : List Char)
  /-- literal string under `re.IGNORECASE` -/
  | litCI (cs : List Char)
  /-- single character class -/
  | cls (p : Char → Bool)
  /-- greedy class repetition `p{lo,hi}` (`hi = none` for unbounded) -/
  | rep (p : Char → Bool) (lo : Nat) (hi : Option Nat)
  /-- concatenation -/
  | seq (a b : RE)
  /-- alternation, left branch preferred -/
  | alt (a b : RE)
  /-- greedy option `a?` -/
  | opt (a : RE)
  /-- capturing group -/
  | grp (a : RE)
  /-- word boundary `\b` -/
  | wb

/-- Consume a literal (case-sensitive or not), tracking the last consumed
input character. -/
def litStep (ci : Bool) : List Char → Option Char → List Char →
    Option (Option Char × List Char)
  | [], prev, s => some (prev, s)
  | p :: ps, _, c :: t =>
    if (if ci then p.toLower == c.toLower else p == c) then
      litStep ci ps (some c) t
    else none
  | _ :: _, _, [] => none

/-- Length of the leading run of class characters. -/
def countRun (p : Char → Bool) : List Char → Nat
  | [] => 0
  | c :: t => if p c then countRun p t + 1 else 0

/-- Last character of `consumed`, falling back to `prev` when nothing was
consumed. -/
def takePrev (prev : Option Char) (consumed : List Char) : Option Char :=
  match consumed.getLast? with
  | some c => some c
  | none => prev

/-- The list `[hi, hi-1, ..., lo]` (empty when `hi < lo`): greedy priority
order for a class repetition. -/
def natsDown (hi lo : Nat) : List Nat :=
  if hi < lo then [] else (List.range (hi - lo + 1)).map (fun k => hi - k)

/-- Word-character test on an optional character (absent = non-word). -/
def isWordOpt : Option Char → Bool
  | some c => isPyWord c
  | none => false

/-- All ways `re` matches a prefix of `s`, in Python's backtracking priority
order.  `prev` is the character immediately before `s` in the full text. -/
def mrun : RE → Option Char → List Char → List MOut
  | .lit cs, prev, s =>
    match litStep false cs prev s with
    | some (pv, r) => [⟨pv, r, []⟩]
    | none => []
  | .litCI cs, prev, s =>
    match litStep true cs prev s with
    | some (pv, r) => [⟨pv, r, []⟩]
    | none => []
  | .cls p, _, s =>
    match s with
    | c :: t => if p c then [⟨some c, t, []⟩] else []
    | [] => []
  | .rep p lo hi, prev, s =>
    let mx := match hi with
      | some h => Nat.min h (countRun p s)
      | none => countRun p s
    (natsDown mx lo).map (fun n => ⟨takePrev prev (s.take n), s.drop n, []⟩)
  | .seq a b, prev, s =>
    (mrun a prev s).flatMap (fun o =>
      (mrun b o.prev o.rest).map (fun o2 => ⟨o2.prev, o2.rest, o.caps ++ o2.caps⟩))
  | .alt a b, prev, s => mrun a prev s ++ mrun b prev s
  | .opt a, prev, s => mrun a prev s ++ [⟨prev, s, []⟩]
  | .grp a, prev, s =>
    (mrun a prev s).map (fun o =>
      ⟨o.prev, o.rest, o.caps ++ [s.take (s.length - o.rest.length)]⟩)
  | .wb, prev, s =>
    if isWordOpt prev != isWordOpt (match s with | c :: _ => some c | [] => none)
    then [⟨prev, s, []⟩] else []

/-- A successful search: the matched text, its captures, the remaining
input, and the character just before the remaining input. -/
structure SearchHit where
  matched : List Char
  caps : List (List Char)
  rest : List Char
  prevA : Option Char
deriving Repr, DecidableEq

/-- Leftmost match of `re` in `s` (Python `re.search`), scanning forward one
character at a time. -/
def reSearch (re : RE) (prev : Option Char) : List Char → Option SearchHit
  | [] =>
    match mrun re prev [] with
    | o :: _ => some ⟨[], o.caps, o.rest, o.prev⟩
    | [] => none
  | c :: t =>
    match mrun re prev (c :: t) with
    | o :: _ =>
      some ⟨(c :: t).take ((c :: t).length - o.rest.length), o.caps, o.rest, o.prev⟩
    | [] => reSearch re (some c) t

/-- Fuelled worker for `findall`: repeatedly search, emitting
(match, captures) pairs, continuing after each match.  The patterns in this
repository never match the empty string, so the zero-width branch is a
safety net only; fuel `length + 1` always suffices. -/
def refindGo (re : RE) : Nat → Option Char → List Char →
    List (List Char × List (List Char))
  | 0, _, _ => []
  | Nat.succ fuel, prev, s =>
    match reSearch re prev s with
    | none => []
    | some h =>
      if h.matched.isEmpty then
        match h.rest with
        | [] => [([], h.caps)]
        | c :: t => ([], h.caps) :: refindGo re fuel (some c) t
      else
        (h.matched, h.caps) :: refindGo re fuel h.prevA h.rest

/-- Python `re.findall`, returning each match together with its captures. -/
def findallL (re : RE) (s : List Char) : List (List Char × List (List Char)) :=
  refindGo re (s.length + 1) none s

/-- The matched substrings of every match (what `findall` returns for a
pattern without groups). -/
def findallMatches (re : RE) (s : List Char) : List (List Char) :=
  (findallL re s).map Prod.fst

/-- The capture lists of every match (what `findall` returns for a pattern
with groups). -/
def findallCaps (re : RE) (s : List Char) : List (List (List Char)) :=
  (findallL re s).map Prod.snd

/-- Python `re.search(...) is not None`. -/
def reTest (re : RE) (s : List Char) : Bool :=
  (reSearch re none s).isSome

/-- Literal pattern from a string. -/
def reStr (s : String) : RE := .lit s.data

/-- Case-insensitive literal pattern from a string. -/
def reStrCI (s : String) : RE := .litCI s.data

/-- Concatenation of a pattern list. -/
def rseq : List RE → RE
  | [] => .lit []
  | [r] => r
  | r :: rest => .seq r (rseq rest)

/-! ### The patterns of the repository -/

/-- Class `[^\s]`. -/
def nonSp (c : Char) : Bool := !isPySpace c

/-- Class `[-.\s]` (phone separators). -/
def sepDash (c : Char) : Bool := c == '-' || c == '.' || isPySpace c

/-- Class `[\w\-]`. -/
def wordDash (c : Char) : Bool := isPyWord c || c == '-'

/-- Class `[A-Za-z0-9._%+-]` (email local part). -/
def emailLocalC (c : Char) : Bool :=
  isPyAlnum c || c == '.' || c == '_' || c == '%' || c == '+' || c == '-'

/-- Class `[A-Za-z0-9.-]` (email domain). -/
def emailDomC (c : Char) : Bool := isPyAlnum c || c == '.' || c == '-'

/-- Class `[A-Z|a-z]` (email "TLD"; the source class literally contains
`|`). -/
def tldC (c : Char) : Bool := isPyAlpha c || c == '|'

/-- Class `[\s\-]` / `[\s-]`. -/
def spaceDash (c : Char) : Bool := isPySpace c || c == '-'

/-- Class `[-–]` (ASCII hyphen or en dash, date separators). -/
def dashEn (c : Char) : Bool := c == '-' || c == '–'

/-- `https?://[^\s]+` (resume_parser.clean_text URL protection). -/
def urlRE : RE := rseq [reStr "http", .opt (reStr "s"), reStr "://", .rep nonSp 1 none]

/-- `(?:www\.)?linkedin\.com/(?:in|pub)/[\w\-]+` with `re.IGNORECASE`
(clean_text LinkedIn protection and contact tier 2). -/
def linkedinRE : RE :=
  rseq [.opt (reStrCI "www."), reStrCI "linkedin.com/",
        .alt (reStrCI "in") (reStrCI "pub"), reStr "/", .rep wordDash 1 none]

/-- `https?://(?:www\.)?linkedin\.com/(?:in|pub)/[\w\-]+` with
`re.IGNORECASE` (contact tier 1). -/
def linkedinFullRE : RE :=
  rseq [reStrCI "http", .opt (reStrCI "s"), reStr "://", .opt (reStrCI "www."),
        reStrCI "linkedin.com/", .alt (reStrCI "in") (reStrCI "pub"),
        reStr "/", .rep wordDash 1 none]

/-- `linkedin\.com/in/([\w\-]+)` with `re.IGNORECASE` (contact tier 3). -/
def linkedinUserRE : RE :=
  rseq [reStrCI "linkedin.com/in/", .grp (.rep wordDash 1 none)]

/-- `\b[A-Za-z0-9._%+-]+@[A-Za-z0-9.-]+\.[A-Z|a-z]{2,}\b` (email). -/
def emailRE : RE :=
  rseq [.wb, .rep emailLocalC 1 none, reStr "@", .rep emailDomC 1 none,
        reStr ".", .rep tldC 2 none, .wb]

/-- `[-.\s]?`. -/
def sep01 : RE := .rep sepDash 0 (some 1)

/-- `\+\d{1,3}[-.\s]?\(?\d{1,4}\)?[-.\s]?\d{1,4}[-.\s]?\d{1,4}[-.\s]?\d{1,9}`. -/
def phone0RE : RE :=
  rseq [reStr "+", .rep isPyDigit 1 (some 3), sep01, .opt (reStr "("),
        .rep isPyDigit 1 (some 4), .opt (reStr ")"), sep01,
        .rep isPyDigit 1 (some 4), sep01, .rep isPyDigit 1 (some 4), sep01,
        .rep isPyDigit 1 (some 9)]

/-- `\(?\d{3}\)?[-.\s]?\d{3}[-.\s]?\d{4}`. -/
def phone1RE : RE :=
  rseq [.opt (reStr "("), .rep isPyDigit 3 (some 3), .opt (reStr ")"), sep01,
        .rep isPyDigit 3 (some 3), sep01, .rep isPyDigit 4 (some 4)]

/-- `\d{3}\.\d{3}\.\d{4}`. -/
def phone2RE : RE :=
  rseq [.rep isPyDigit 3 (some 3), reStr ".", .rep isPyDigit 3 (some 3),
        reStr ".", .rep isPyDigit 4 (some 4)]

/-- `\d{3}-\d{3}-\d{4}`. -/
def phone3RE : RE :=
  rseq [.rep isPyDigit 3 (some 3), reStr "-", .rep isPyDigit 3 (some 3),
        reStr "-", .rep isPyDigit 4 (some 4)]

/-- `\b\d{10}\b`. -/
def phone4RE : RE := rseq [.wb, .rep isPyDigit 10 (some 10), .wb]

/-- `\+91[-.\s]?\d{5}[-.\s]?\d{5}`. -/
def phone5RE : RE :=
  rseq [reStr "+91", sep01, .rep isPyDigit 5 (some 5), sep01,
        .rep isPyDigit 5 (some 5)]

/-- `\+91[-.\s]?\d{10}`. -/
def phone6RE : RE := rseq [reStr "+91", sep01, .rep isPyDigit 10 (some 10)]

/-- `\b\d{3}[-.\s]\d{3}[-.\s]\d{4}\b`. -/
def phone7RE : RE :=
  rseq [.wb, .rep isPyDigit 3 (some 3), .rep sepDash 1 (some 1),
        .rep isPyDigit 3 (some 3), .rep sepDash 1 (some 1),
        .rep isPyDigit 4 (some 4), .wb]

/-- The eight phone patterns of `NLPProcessor.extract_contact_info`, in
priority order. -/
def contactPhoneREs : List RE :=
  [phone0RE, phone1RE, phone2RE, phone3RE, phone4RE, phone5RE, phone6RE, phone7RE]

/-- The five phone patterns of `ResumeParser.clean_text`, in order. -/
def cleanPhoneREs : List RE :=
  [phone0RE, phone1RE, phone2RE, phone3RE, phone4RE]

/-- `(?:years?|yrs?)`. -/
def yearsWord : RE :=
  .alt (rseq [reStr "year", .opt (reStr "s")]) (rseq [reStr "yr", .opt (reStr "s")])

/-- `(?:experience|exp)`. -/
def expWord : RE := .alt (reStr "experience") (reStr "exp")

/-- `(?:of\s+)?`. -/
def ofOptRE : RE := .opt (rseq [reStr "of", .rep isPySpace 1 none])

/-- `(\d+)[\s\-]*(?:years?|yrs?)[\s\-]*(?:of\s+)?(?:experience|exp)`. -/
def expP1RE : RE :=
  rseq [.grp (.rep isPyDigit 1 none), .rep spaceDash 0 none, yearsWord,
        .rep spaceDash 0 none, ofOptRE, expWord]

/-- `(?:experience|exp)[\s\-]*(?:of\s+)?(\d+)[\s\-]*(?:years?|yrs?)`. -/
def expP2RE : RE :=
  rseq [expWord, .rep spaceDash 0 none, ofOptRE, .grp (.rep isPyDigit 1 none),
        .rep spaceDash 0 none, yearsWord]

/-- `(\d+)\+?\s*(?:years?|yrs?)`. -/
def expP3RE : RE :=
  rseq [.grp (.rep isPyDigit 1 none), .opt (reStr "+"), .rep isPySpace 0 none,
        yearsWord]

/-- `(\d+)[\s-]*(?:years?|yrs?)` (spaCy-less fallback). -/
def fallbackYearsRE : RE :=
  rseq [.grp (.rep isPyDigit 1 none), .rep spaceDash 0 none, yearsWord]

/-- `(?:jan|feb|mar|apr|may|jun|jul|aug|sep|oct|nov|dec)`. -/
def monthRE : RE :=
  .alt (reStr "jan") (.alt (reStr "feb") (.alt (reStr "mar") (.alt (reStr "apr")
    (.alt (reStr "may") (.alt (reStr "jun") (.alt (reStr "jul") (.alt (reStr "aug")
      (.alt (reStr "sep") (.alt (reStr "oct") (.alt (reStr "nov") (reStr "dec")))))))))))

/-- `(\d{4})\s*[-–]\s*(\d{4})`. -/
def date1RE : RE :=
  rseq [.grp (.rep isPyDigit 4 (some 4)), .rep isPySpace 0 none, .cls dashEn,
        .rep isPySpace 0 none, .grp (.rep isPyDigit 4 (some 4))]

/-- `(\d{4})\s*[-–]\s*(?:present|current)`. -/
def date2RE : RE :=
  rseq [.grp (.rep isPyDigit 4 (some 4)), .rep isPySpace 0 none, .cls dashEn,
        .rep isPySpace 0 none, .alt (reStr "present") (reStr "current")]

/-- Month-year-to-month-year span pattern
`(?:jan|...|dec)\s+(\d{4})\s*[-–]\s*(?:jan|...|dec)\s+(\d{4})`. -/
def date3RE : RE :=
  rseq [monthRE, .rep isPySpace 1 none, .grp (.rep isPyDigit 4 (some 4)),
        .rep isPySpace 0 none, .cls dashEn, .rep isPySpace 0 none, monthRE,
        .rep isPySpace 1 none, .grp (.rep isPyDigit 4 (some 4))]

/-! ### nlp_processor.py: information extraction -/

/-- The record built by `NLPProcessor.extract_contact_info`. -/
structure ContactInfo where
  email : Option String
  phone : Option String
  linkedin : Option String
deriving Repr, DecidableEq

/-- The record built by `NLPProcessor.extract_experience`
(`experience_sections` is created but never filled nor read downstream). -/
structure ExperienceData where
  total_years : Int
  organizations : List String
  job_titles : List String
deriving Repr, DecidableEq

/-- The record built by `NLPProcessor.extract_education` (the `fields` key
is created but never filled nor read downstream). -/
structure EducationData where
  has_degree : Bool
  level : Option String
  institutions : List String
deriving Repr, DecidableEq

/-- The aggregate returned by `NLPProcessor.process_resume`.  The
short-circuit branch of the source omits the `text_length`/`word_count`
keys; downstream reads them with `.get(..., 0)`, so they are modelled as
the fields being `0` there. -/
structure ProcessedResume where
  contact_info : ContactInfo
  skills : List (String × List String)
  experience : ExperienceData
  education : EducationData
  text_length : Nat
  word_count : Nat
deriving Repr, DecidableEq

/-- First match of the email pattern (`extract_contact_info`). -/
def extractEmailL (t : List Char) : Option (List Char) :=
  (findallMatches emailRE t).head?

/-- Matches of the first phone pattern that matches anything
(`extract_contact_info`'s loop with its `break`). -/
def firstPhoneMatches : List RE → List Char → List (List Char)
  | [], _ => []
  | re :: rest, t =>
    match findallMatches re t with
    | [] => firstPhoneMatches rest t
    | ms => ms

/-- Python `' '.join(phone.split())` followed by `.strip()`: collapse all
whitespace runs to single spaces and trim. -/
def normWsJoin (l : List Char) : List Char := trimBoth (collapseWs l)

/-- The phone field of `extract_contact_info`: first match of the first
phone pattern in priority order that matches anything, with internal
whitespace normalized. -/
def extractPhoneL (t : List Char) : Option (List Char) :=
  match firstPhoneMatches contactPhoneREs t with
  | [] => none
  | ph :: _ => some (normWsJoin ph)

/-- The linkedin field of `extract_contact_info`: full-URL tier, then
protocol-less tier (prefix `https://` unless the match starts with `http`),
then bare-username tier. -/
def extractLinkedinL (t : List Char) : Option (List Char) :=
  match findallMatches linkedinFullRE t with
  | u :: _ => some u
  | [] =>
    match findallMatches linkedinRE t with
    | u :: _ => some (if leadsWith "http".data u then u else "https://".data ++ u)
    | [] =>
      match findallCaps linkedinUserRE t with
      | caps :: _ => some ("https://linkedin.com/in/".data ++ caps.headD [])
      | [] => none

/-- `NLPProcessor.extract_contact_info`. -/
def extract_contact_info (t : String) : ContactInfo :=
  { email := (extractEmailL t.data).map String.mk
    phone := (extractPhoneL t.data).map String.mk
    linkedin := (extractLinkedinL t.data).map String.mk }

/-- The fixed skill table `NLPProcessor.tech_skills` (category order and
term order as in the source). -/
def techSkills : List (String × List String) :=
  [("programming",
    ["python", "java", "javascript", "c++", "c#", "php", "ruby", "go",
     "swift", "kotlin", "scala", "r", "matlab", "sql", "html", "css",
     "typescript", "perl", "shell", "bash", "powershell"]),
   ("frameworks",
    ["react", "angular", "vue", "django", "flask", "spring", "nodejs",
     "express", "laravel", "rails", "tensorflow", "pytorch", "keras",
     "scikit-learn", "pandas", "numpy", "bootstrap", "jquery"]),
   ("tools",
    ["git", "docker", "kubernetes", "jenkins", "ansible", "terraform",
     "vagrant", "maven", "gradle", "npm", "yarn", "webpack", "jira",
     "confluence", "slack", "trello"]),
   ("databases",
    ["mysql", "postgresql", "mongodb", "oracle", "redis", "elasticsearch",
     "sqlite", "cassandra", "dynamodb", "neo4j", "influxdb"]),
   ("cloud",
    ["aws", "azure", "gcp", "heroku", "digital ocean", "linode",
     "s3", "ec2", "lambda", "cloudformation", "terraform"]),
   ("soft_skills",
    ["leadership", "communication", "teamwork", "problem solving",
     "project management", "agile", "scrum", "kanban", "analytical",
     "creative", "innovative", "collaborative"])]

/-- Whole-word pattern `\b<term>\b` (the term is `re.escape`d in the
source, hence literal). -/
def wholeWordRE (term : List Char) : RE := rseq [.wb, .lit (lowerL term), .wb]

/-- `NLPProcessor.extract_skills`: per category, the terms with a
whole-word case-insensitive match; categories with no match are dropped. -/
def extract_skills (t : String) : List (String × List String) :=
  let tl := lowerL t.data
  (techSkills.map (fun ct =>
    (ct.1, ct.2.filter (fun term => reTest (wholeWordRE term.data) tl)))).filter
    (fun ct => !ct.2.isEmpty)

/-- Integers harvested from one experience pattern: first capture of each
match, kept when it `isdigit()`. -/
def capYears (re : RE) (tl : List Char) : List Nat :=
  (findallCaps re tl).filterMap (fun caps =>
    let g := caps.headD []
    if allDigits g then some (digitsVal g) else none)

/-- `years_found` of `extract_experience`: the three explicit patterns run
on the lower-cased text, all matched integers collected. -/
def explicitYearsL (tl : List Char) : List Nat :=
  capYears expP1RE tl ++ capYears expP2RE tl ++ capYears expP3RE tl

/-- Maximum of a non-empty batch, Python `max(years_found)`. -/
def maxNat1 (y : Nat) (rest : List Nat) : Nat := rest.foldl Nat.max y

/-- `NLPProcessor._infer_experience_from_dates`: for each date pattern, for
each match whose captures form a pair, record end-year minus start-year
(`end` falls back to `current_year` when the capture is not a digit
string, a branch no pair-producing pattern can reach).  The single-group
`YYYY-present/current` pattern produces one-element capture lists, which
fail the pair check, mirroring the source's `isinstance(match, tuple) and
len(match) == 2` test on a single-group `findall`. -/
def datePairDiff (currentYear : Nat) (caps : List (List Char)) : Option Int :=
  match caps with
  | [a, b] =>
    some ((if allDigits b then (digitsVal b : Int) else (currentYear : Int))
          - (digitsVal a : Int))
  | _ => none

/-- The contribution of one date pattern to `_infer_experience_from_dates`. -/
def pairDiffs (re : RE) (tl : List Char) (currentYear : Nat) : List Int :=
  (findallCaps re tl).filterMap (datePairDiff currentYear)

/-- Python `max(l)` for a possibly-empty list, `0` when empty
(`max(years_worked) if years_worked else 0`). -/
def maxIntD (l : List Int) : Int :=
  match l with
  | [] => 0
  | d :: ds => ds.foldl max d

def inferFromDatesL (t : List Char) (currentYear : Nat) : Int :=
  let tl := lowerL t
  maxIntD ([date1RE, date2RE, date3RE].flatMap (fun re => pairDiffs re tl currentYear))

/-- The `total_years` computation of `NLPProcessor.extract_experience`
(spaCy available): maximum over the explicit patterns if any matched,
falling back to date inference whenever the total is still `0`. -/
def extractTotalYearsL (t : List Char) (currentYear : Nat) : Int :=
  let tl := lowerL t
  let total : Int :=
    match explicitYearsL tl with
    | [] => 0
    | y :: rest => (maxNat1 y rest : Int)
  if total = 0 then inferFromDatesL t currentYear else total

/-- The named-entity capability: `some f` models a loaded spaCy pipeline
whose `f text` returns the texts of entities labelled `ORG`, in document
order; `none` models `spacy.load` having failed. -/
abbrev NerFn := String → List String

/-- Python `list(set(xs))` keeps each element once; the iteration order of
a Python set is unspecified, modelled here as first-occurrence order. -/
def dedupL (xs : List String) : List String := xs.eraseDups

/-- Education/false-positive filter words of `extract_experience`. -/
def orgStopWords : List String := ["university", "college", "school", "degree"]

/-- `NLPProcessor.extract_experience` (spaCy branch) /
`_extract_experience_fallback` (no spaCy): organizations come from the
entity capability, filtered; `total_years` as in the source's two paths;
`job_titles` is never filled. -/
def extract_experience (ner : Option NerFn) (t : String) (currentYear : Nat) :
    ExperienceData :=
  match ner with
  | none =>
    { total_years :=
        match capYears fallbackYearsRE (lowerL t.data) with
        | [] => 0
        | y :: rest => (maxNat1 y rest : Int)
      organizations := []
      job_titles := [] }
  | some f =>
    { total_years := extractTotalYearsL t.data currentYear
      organizations := dedupL ((f t).filterMap (fun o =>
        let og := trimBoth o.data
        if og.length > 2 &&
           !(orgStopWords.any (fun w => occursIn w.data (lowerL og)))
        then some (String.mk og) else none))
      job_titles := [] }

/-- Education keywords for `has_degree`. -/
def eduKeywords : List String :=
  ["bachelor", "master", "phd", "doctorate", "degree", "diploma",
   "university", "college", "institute", "school"]

/-- Institution indicator words. -/
def eduOrgWords : List String := ["university", "college", "institute", "school"]

/-- `NLPProcessor.extract_education`. -/
def extract_education (ner : Option NerFn) (t : String) : EducationData :=
  let tl := lowerL t.data
  { has_degree := eduKeywords.any (fun k => occursIn k.data tl)
    level :=
      if occursIn "phd".data tl || occursIn "ph.d".data tl ||
         occursIn "doctorate".data tl then some "PhD"
      else if occursIn "master".data tl || occursIn "mba".data tl ||
              occursIn "m.s".data tl || occursIn "m.a".data tl then some "Masters"
      else if occursIn "bachelor".data tl || occursIn "b.s".data tl ||
              occursIn "b.a".data tl || occursIn "b.tech".data tl then
        some "Bachelors"
      else if occursIn "associate".data tl then some "Associates"
      else none
    institutions :=
      match ner with
      | some f => (f t).filter (fun o =>
          eduOrgWords.any (fun w => occursIn w.data (lowerL o.data)))
      | none => [] }

/-- Python `len(text.split())`: the number of maximal non-whitespace runs. -/
def wordCountL (t : List Char) : Nat :=
  let c := trimBoth (collapseWs t)
  if c.isEmpty then 0 else (c.filter (fun ch => ch == ' ')).length + 1

/-- The all-empty record returned by `process_resume` for empty/short input
(and by its exception handler, unreachable in this embedding). -/
def emptyProcessed : ProcessedResume :=
  { contact_info := ⟨none, none, none⟩
    skills := []
    experience := ⟨0, [], []⟩
    education := ⟨false, none, []⟩
    text_length := 0
    word_count := 0 }

/-- `NLPProcessor.process_resume`. -/
def process_resume (ner : Option NerFn) (currentYear : Nat) (text : String) :
    ProcessedResume :=
  if text.data.isEmpty || (trimBoth text.data).length < 50 then emptyProcessed
  else
    { contact_info := extract_contact_info text
      skills := extract_skills text
      experience := extract_experience ner text currentYear
      education := extract_education ner text
      text_length := text.data.length
      word_count := wordCountL text.data }

/-! ### resume_parser.py: text normalization and parsing -/

/-- Placeholder `__URL_<i>__`. -/
def urlPh (i : Nat) : List Char := "__URL_".data ++ natToChars i ++ "__".data

/-- Placeholder `__LINKEDIN_<i>__`. -/
def lkPh (i : Nat) : List Char := "__LINKEDIN_".data ++ natToChars i ++ "__".data

/-- Placeholder `__EMAIL_<i>__`. -/
def emPh (i : Nat) : List Char := "__EMAIL_".data ++ natToChars i ++ "__".data

/-- Placeholder `__PHONE_<i>_<j>__`. -/
def phPh (i j : Nat) : List Char :=
  "__PHONE_".data ++ natToChars i ++ "_".data ++ natToChars j ++ "__".data

/-- Replace each found span in turn by its numbered placeholder
(`text = text.replace(span, placeholder)`), recording the
placeholder-to-span mapping in insertion order.  The replacement is the
all-occurrences `str.replace`, exactly as in the source. -/
def protectSpans (mk : Nat → List Char) (i : Nat) (spans : List (List Char))
    (t : List Char) : List Char × List (List Char × List Char) :=
  match spans with
  | [] => (t, [])
  | s :: rest =>
    let ph := mk i
    let step := protectSpans mk (i + 1) rest (replaceAll s ph t)
    (step.1, (ph, s) :: step.2)

/-- The phone-protection loop of `clean_text`: for each of the five
patterns (index `i`), find all matches in the current text and replace
match `j` by `__PHONE_i_j__`. -/
def protectPhones (i : Nat) (res : List RE) (t : List Char) :
    List Char × List (List Char × List Char) :=
  match res with
  | [] => (t, [])
  | re :: rest =>
    let step := protectSpans (phPh i) 0 (findallMatches re t) t
    let next := protectPhones (i + 1) rest step.1
    (next.1, step.2 ++ next.2)

/-- The whole protection phase of `clean_text`: URLs, then protocol-less
LinkedIn paths, then emails, then the five phone patterns.  The association
list is in restoration order (URL and LinkedIn placeholders share one
dictionary in the source, iterated in insertion order, then emails, then
phones). -/
def protectPhase (t : List Char) : List Char × List (List Char × List Char) :=
  let u := protectSpans urlPh 0 (findallMatches urlRE t) t
  let l := protectSpans lkPh 0 (findallMatches linkedinRE u.1) u.1
  let e := protectSpans emPh 0 (findallMatches emailRE l.1) l.1
  let p := protectPhones 0 cleanPhoneREs e.1
  (p.1, u.2 ++ l.2 ++ e.2 ++ p.2)

/-- Restoration: `text = text.replace(placeholder, span)` over the
association list in order. -/
def restoreSpans (assoc : List (List Char × List Char)) (t : List Char) :
    List Char :=
  assoc.foldl (fun acc pr => replaceAll pr.1 pr.2 acc) t

/-- The body of `clean_text` after protection: collapse whitespace, strip
non-kept characters to spaces, collapse repeated spaces, restore the
protected spans, trim. -/
def cleanCore (t : List Char) : List Char :=
  let ph := protectPhase t
  trimBoth (restoreSpans ph.2 (collapseSp (stripChars (collapseWs ph.1))))

/-- `ResumeParser.clean_text`. -/
def cleanTextL (t : List Char) : List Char :=
  if t.isEmpty then [] else cleanCore t

/-- `ResumeParser.clean_text` on `String`. -/
def cleanText (s : String) : String := String.mk (cleanTextL s.data)

/-- Python `str.split('.')` on a character list: the (never-empty) list of
dot-separated segments. -/
def splitDotGo (acc : List Char) : List Char → List (List Char)
  | [] => [acc.reverse]
  | c :: t =>
    if c == '.' then acc.reverse :: splitDotGo [] t
    else splitDotGo (c :: acc) t

/-- The extension computed by `parse_resume`:
`uploaded_file.name.split('.')[-1].lower()`. -/
def extOf (name : String) : String :=
  String.mk (lowerL ((splitDotGo [] name.data).getLastD []))

/-- The body of `ResumeParser.parse_resume` before its catch-all handler.
Text extraction itself is I/O against the PDF/DOCX libraries and cannot
throw out of the extractors (they catch internally and return `""`), so it
is modelled by the two extraction results being parameters; the only error
that can escape to the handler is the unsupported-format `ValueError`. -/
def parse_resume_attempt (name pdfText docxText : String) : Except String String :=
  let ext := extOf name
  if ext = "pdf" then .ok (cleanText pdfText)
  else if ext = "docx" ∨ ext = "doc" then .ok (cleanText docxText)
  else .error ("Unsupported file format: " ++ ext)

/-- `ResumeParser.parse_resume`: the catch-all `except` prints and returns
the empty string, so the caller never observes the error value. -/
def parse_resume (name pdfText docxText : String) : String :=
  match parse_resume_attempt name pdfText docxText with
  | .ok s => s
  | .error _ => ""

/-! ### scorer.py: weighted scoring

Python floats are modelled as rationals; the arithmetic in the scorer stays
far from the branch thresholds exercised below, so the real-number
semantics and IEEE semantics agree on every branch decision proved here. -/

/-- Python truthiness of an optional number (absent or zero is falsy). -/
def qTruthy : Option ℚ → Bool
  | none => false
  | some x => x != 0

/-- Python truthiness of an optional string (absent or empty is falsy). -/
def sTruthy : Option String → Bool
  | none => false
  | some s => s != ""

/-- Normalization applied to every skill string: `skill.lower().strip()`. -/
def normSkill (s : String) : String := String.mk (trimBoth (lowerL s.data))

/-- The deduplicated, normalized skill set of a skills mapping
(`resume_skill_set`). -/
def resumeSkillSet (resume_skills : List (String × List String)) : Finset String :=
  ((resume_skills.flatMap Prod.snd).map normSkill).toFinset

/-- Normalized skill set of a requirement list. -/
def reqSkillSet (skills : List String) : Finset String :=
  (skills.map normSkill).toFinset

/-- `ResumeScorer.score_skills_match`. -/
def score_skills_match (resume_skills : List (String × List String))
    (required_skills nice_to_have_skills : List String) : ℚ :=
  if required_skills.isEmpty && nice_to_have_skills.isEmpty then 1/2
  else
    let rset := resumeSkillSet resume_skills
    let reqset := reqSkillSet required_skills
    let niceset := reqSkillSet nice_to_have_skills
    let requiredScore : ℚ :=
      if 0 < reqset.card then ((rset ∩ reqset).card : ℚ) / (reqset.card : ℚ) else 0
    let niceScore : ℚ :=
      if 0 < niceset.card then ((rset ∩ niceset).card : ℚ) / (niceset.card : ℚ) else 0
    let finalScore : ℚ :=
      if 0 < reqset.card ∧ 0 < niceset.card then
        requiredScore * (4/5) + niceScore * (1/5)
      else if 0 < reqset.card then requiredScore
      else if 0 < niceset.card then niceScore
      else 1/2
    min finalScore 1

/-- `ResumeScorer.score_experience`. -/
def score_experience (years : ℚ) (required_years : ℚ)
    (preferred_years : Option ℚ) : ℚ :=
  if years < 0 then 0
  else if required_years = 0 ∧ ¬ qTruthy preferred_years then 1/2
  else if required_years ≤ years then
    if qTruthy preferred_years ∧ preferred_years.getD 0 ≤ years then 1
    else if required_years < years then
      min 1 (7/10 + min (3/10) ((years - required_years) * (1/20)))
    else 7/10
  else if 0 < required_years then years / required_years * (3/5)
  else 1/2

/-- The education hierarchy dictionary. -/
def eduHierarchy : List (String × ℚ) :=
  [("Associates", 1), ("Bachelors", 2), ("Masters", 3), ("MBA", 3), ("PhD", 4)]

/-- Python `education_hierarchy.get(key, default)` on an optional key. -/
def hierGet (key : Option String) (dflt : ℚ) : ℚ :=
  ((key.bind (fun k => eduHierarchy.lookup k)).getD dflt)

/-- `ResumeScorer.score_education`. -/
def score_education (edu : EducationData)
    (required_level preferred_level : Option String) : ℚ :=
  if ¬ edu.has_degree then
    if sTruthy required_level then 1/5 else 3/5
  else if ¬ sTruthy edu.level then 1/2
  else
    let currentScore := hierGet edu.level 1
    if ¬ sTruthy required_level ∧ ¬ sTruthy preferred_level then
      min (currentScore / 4) 1
    else
      let requiredScore := if sTruthy required_level then hierGet required_level 0 else 0
      let preferredScore := if sTruthy preferred_level then hierGet preferred_level 0 else 0
      if requiredScore ≤ currentScore then
        if preferredScore ≠ 0 ∧ preferredScore ≤ currentScore then 1
        else if requiredScore < currentScore then
          min 1 (7/10 + min (3/10) ((currentScore - requiredScore) * (3/20)))
        else 7/10
      else currentScore / max requiredScore 1 * (3/5)

/-- `ResumeScorer.score_resume_quality`. -/
def score_resume_quality (pd : ProcessedResume) : ℚ :=
  if pd.text_length < 100 ∨ pd.word_count < 20 then 1/10
  else
    let contactQ : ℚ :=
      (if sTruthy pd.contact_info.email then 1/4 else 0) +
      (if sTruthy pd.contact_info.phone then 3/20 else 0) +
      (if sTruthy pd.contact_info.linkedin then 1/10 else 0)
    let totalSkills := (pd.skills.map (fun ct => ct.2.length)).sum
    let skillsQ : ℚ :=
      if 0 < totalSkills then
        (3/20) + (if 2 < pd.skills.length then 1/10 else 0)
      else 0
    let expQ : ℚ :=
      (if 0 < pd.experience.total_years then 3/20 else 0) +
      (if !pd.experience.organizations.isEmpty then 1/10 else 0)
    min (contactQ + skillsQ + expQ) 1

/-- `JobRequirements` as read by `calculate_overall_score` via `.get`. -/
structure JobRequirements where
  required_skills : List String
  nice_to_have_skills : List String
  min_experience : ℚ
  preferred_experience : Option ℚ
  education_level : Option String
  preferred_education_level : Option String
deriving Repr, DecidableEq

/-- The defaults `calculate_overall_score` uses when the requirement dict
is absent or lacks keys. -/
def defaultJR : JobRequirements := ⟨[], [], 0, none, none, none⟩

/-- Round half to even at the integers (Python `round` semantics on exact
values). -/
def roundHalfEven (x : ℚ) : ℤ :=
  let f := x.floor
  let r := x - (f : ℚ)
  if r < 1/2 then f
  else if 1/2 < r then f + 1
  else if f % 2 = 0 then f else f + 1

/-- Python `round(x, 1)` on the idealized rational value. -/
def roundTo1 (x : ℚ) : ℚ := (roundHalfEven (x * 10) : ℚ) / 10

/-- The result dictionary of `calculate_overall_score`. -/
structure ScoreResult where
  overall_score : ℚ
  skills_match : ℚ
  experience_years : ℚ
  education : ℚ
  resume_quality : ℚ
  score_percentage : ℚ
  feedback : List (String × String)
  recommendation : String
deriving Repr, DecidableEq

/-- `ResumeScorer._get_recommendation`. -/
def getRecommendation (overall : ℚ) : String :=
  if 4/5 ≤ overall then "Strong Candidate - Recommend for Interview"
  else if 3/5 ≤ overall then "Good Candidate - Consider for Interview"
  else if 2/5 ≤ overall then "Moderate Candidate - Review Carefully"
  else "Weak Candidate - Consider Rejection"

/-- String rendering of the extracted education level for feedback
(`.get('level', 'None')` prints `None` both when the key is missing and
when it holds `None`). -/
def levelStr : Option String → String
  | some s => s
  | none => "None"

/-- `ResumeScorer._generate_feedback`. -/
def generateFeedback (skills expScore eduScore quality : ℚ) (years : Int)
    (required : ℚ) (eduLevel : Option String) : List (String × String) :=
  [("skills",
    if skills < 1/2 then
      "Consider adding more relevant technical skills mentioned in the job description."
    else if skills < 4/5 then
      "Good skill match, but could be improved by learning additional required skills."
    else "Excellent skill match with job requirements."),
   ("experience",
    if expScore < 1/2 then
      "Experience (" ++ toString years ++ " years) is below the required " ++
        toString required ++ " years."
    else if expScore < 4/5 then
      "Experience (" ++ toString years ++ " years) meets basic requirements."
    else "Excellent experience level (" ++ toString years ++ " years) for this role."),
   ("education",
    if eduScore < 1/2 then
      "Education level (" ++ levelStr eduLevel ++ ") may not meet job requirements."
    else "Education level (" ++ levelStr eduLevel ++ ") is appropriate for this role."),
   ("quality",
    if quality < 1/2 then
      "Resume could be improved with more complete contact information and better formatting."
    else if quality < 4/5 then "Resume quality is good but could be enhanced."
    else "Excellent resume quality and completeness.")]

/-- `ResumeScorer._empty_score_result`. -/
def emptyScoreResult : ScoreResult :=
  { overall_score := 0
    skills_match := 0
    experience_years := 0
    education := 0
    resume_quality := 0
    score_percentage := 0
    feedback := [("error", "Could not process resume")]
    recommendation := "Unable to Evaluate" }

/-- `ResumeScorer.calculate_overall_score`.  `none` models a falsy
`processed_data` (Python `None` or `{}`); `process_resume` always returns a
populated dict, so its results are `some`. -/
def calculate_overall_score (pd : Option ProcessedResume)
    (jr : Option JobRequirements) : ScoreResult :=
  match pd with
  | none => emptyScoreResult
  | some d =>
    let j := jr.getD defaultJR
    let skills := score_skills_match d.skills j.required_skills j.nice_to_have_skills
    let expScore := score_experience (d.experience.total_years : ℚ)
      j.min_experience j.preferred_experience
    let eduScore := score_education d.education j.education_level
      j.preferred_education_level
    let quality := score_resume_quality d
    let overall := skills * (2/5) + expScore * (1/4) + eduScore * (1/5) +
      quality * (3/20)
    { overall_score := overall
      skills_match := skills
      experience_years := expScore
      education := eduScore
      resume_quality := quality
      score_percentage := roundTo1 (overall * 100)
      feedback := generateFeedback skills expScore eduScore quality
        d.experience.total_years j.min_experience d.education.level
      recommendation := getRecommendation overall }

/-! ### Auxiliary notions used by the theorem statements -/

/-- Number of capturing groups of a pattern (for balanced patterns, the
length of every capture list the engine can produce). -/
def countGroups : RE → Nat
  | .lit _ => 0
  | .litCI _ => 0
  | .cls _ => 0
  | .rep _ _ _ => 0
  | .wb => 0
  | .seq a b => countGroups a + countGroups b
  | .alt a _ => countGroups a
  | .opt _ => 0
  | .grp a => countGroups a + 1

/-- Patterns whose alternation branches carry equally many groups and whose
optional parts carry none: for these, every match produces exactly
`countGroups` captures. -/
def balancedG : RE → Bool
  | .lit _ => true
  | .litCI _ => true
  | .cls _ => true
  | .rep _ _ _ => true
  | .wb => true
  | .seq a b => balancedG a && balancedG b
  | .alt a b => balancedG a && balancedG b && (countGroups a == countGroups b)
  | .opt a => balancedG a && (countGroups a == 0)
  | .grp a => balancedG a

/-- Adding one skill to the named category of a skills mapping, everything
else unchanged. -/
def addSkillTo (cat skill : String) (rs : List (String × List String)) :
    List (String × List String) :=
  rs.map (fun ct => if ct.1 = cat then (ct.1, skill :: ct.2) else ct)

/-- Characters that survive `clean_text`'s stripping unchanged and are not
whitespace (the alphabet of the placeholders). -/
def keptNonSp (c : Char) : Bool := isKept c && !isPySpace c

/-- Non-empty with non-whitespace first and last character (true of every
protected span the patterns can produce). -/
def edgeNonSp (s : List Char) : Bool :=
  match s with
  | [] => false
  | c :: _ => !isPySpace c && !isPySpace (s.getLastD c)

/-- State-carrying check that a text is already in normal form: every
whitespace character is a plain space, spaces are never adjacent, and every
character survives stripping.  `st` records whether the previous character
was a space. -/
def tidyFrom (st : Bool) : List Char → Bool
  | [] => true
  | c :: t =>
    if isPySpace c then c == ' ' && !st && tidyFrom true t
    else isKept c && tidyFrom false t

/-- A text in normal form: tidy characters and no leading or trailing
space. -/
def tidy (t : List Char) : Bool :=
  tidyFrom false t &&
  (match t with | [] => true | c :: _ => !isPySpace c) &&
  (match t.getLast? with | some c => !isPySpace c | none => true)

/-! ## Lemmas about the string primitives -/

theorem leadsWith_append (p r : List Char) : leadsWith p (p ++ r) = true := by
  induction p with
  | nil => rfl
  | cons c t ih => simp [leadsWith, ih]

theorem leadsWith_decomp {p s : List Char} (h : leadsWith p s = true) :
    ∃ r, s = p ++ r := by
  induction p generalizing s with
  | nil => exact ⟨s, rfl⟩
  | cons c t ih =>
    cases s with
    | nil => simp [leadsWith] at h
    | cons c' s' =>
      simp only [leadsWith, Bool.and_eq_true, beq_iff_eq] at h
      obtain ⟨r, hr⟩ := ih h.2
      exact ⟨r, by simp [h.1, hr]⟩

theorem occursIn_of_leads {p s : List Char} (h : leadsWith p s = true) :
    occursIn p s = true := by
  cases s <;> simp [occursIn, h]

theorem occursIn_cons {p t : List Char} (c : Char) (h : occursIn p t = true) :
    occursIn p (c :: t) = true := by
  simp [occursIn, h]

theorem occursIn_append_right {p b : List Char} (a : List Char)
    (h : occursIn p b = true) : occursIn p (a ++ b) = true := by
  induction a with
  | nil => exact h
  | cons c t ih => exact occursIn_cons c ih

theorem occursIn_self_append (p r : List Char) : occursIn p (p ++ r) = true :=
  occursIn_of_leads (leadsWith_append p r)

theorem occursIn_decomp {p s : List Char} (h : occursIn p s = true) :
    ∃ a b, s = a ++ p ++ b := by
  induction s with
  | nil =>
    refine ⟨[], [], ?_⟩
    simp only [occursIn] at h
    obtain ⟨r, hr⟩ := leadsWith_decomp h
    simp at hr
    simp [hr.1]
  | cons c t ih =>
    simp only [occursIn, Bool.or_eq_true] at h
    rcases h with h | h
    · obtain ⟨r, hr⟩ := leadsWith_decomp h
      exact ⟨[], r, by simp [hr]⟩
    · obtain ⟨a, b, hab⟩ := ih h
      exact ⟨c :: a, b, by simp [hab]⟩

theorem occursIn_compose {p s : List Char} (a b : List Char)
    (h : s = a ++ p ++ b) : occursIn p s = true := by
  subst h
  rw [List.append_assoc]
  exact occursIn_append_right a (occursIn_self_append p b)

theorem occursIn_reverse {p s : List Char} (h : occursIn p s = true) :
    occursIn p.reverse s.reverse = true := by
  obtain ⟨a, b, hab⟩ := occursIn_decomp h
  subst hab
  exact occursIn_compose b.reverse a.reverse (by simp)

theorem occursIn_map (f : Char → Char) {p s : List Char}
    (h : occursIn p s = true) : occursIn (p.map f) (s.map f) = true := by
  obtain ⟨a, b, hab⟩ := occursIn_decomp h
  subst hab
  exact occursIn_compose (a.map f) (b.map f) (by simp)

theorem squeezeGo_cons_neg {P : Char → Bool} {c : Char} (hc : P c = false)
    (st : Bool) (l : List Char) :
    squeezeGo P st (c :: l) = c :: squeezeGo P false l := by
  simp [squeezeGo, hc]

theorem squeezeGo_nonP_append {P : Char → Bool} {p : List Char}
    (hnp : ∀ c ∈ p, P c = false) (hp : p ≠ []) (st : Bool) (b : List Char) :
    squeezeGo P st (p ++ b) = p ++ squeezeGo P false b := by
  induction p generalizing st with
  | nil => exact absurd rfl hp
  | cons c t ih =>
    have hc : P c = false := hnp c (by simp)
    rw [List.cons_append, squeezeGo_cons_neg hc]
    cases t with
    | nil => simp
    | cons c' t' =>
      rw [ih (fun x hx => hnp x (List.mem_cons_of_mem c hx)) (by simp) false]
      simp

theorem squeezeGo_keeps_aux {P : Char → Bool} {p : List Char}
    (hp : p ≠ []) (hnp : ∀ c ∈ p, P c = false) (b : List Char) :
    ∀ (a : List Char) (st : Bool),
      occursIn p (squeezeGo P st (a ++ (p ++ b))) = true := by
  intro a
  induction a with
  | nil =>
    intro st
    rw [List.nil_append, squeezeGo_nonP_append hnp hp st b]
    exact occursIn_self_append p _
  | cons c t ih =>
    intro st
    rw [List.cons_append]
    by_cases hc : P c = true
    · simp only [squeezeGo, hc, if_true]
      cases st with
      | true => exact ih true
      | false => exact occursIn_cons ' ' (ih true)
    · rw [squeezeGo_cons_neg (by simpa using hc)]
      exact occursIn_cons c (ih false)

theorem squeezeGo_keeps {P : Char → Bool} {p : List Char}
    (hp : p ≠ []) (hnp : ∀ c ∈ p, P c = false) (st : Bool) {s : List Char}
    (h : occursIn p s = true) : occursIn p (squeezeGo P st s) = true := by
  obtain ⟨a, b, hab⟩ := occursIn_decomp h
  subst hab
  rw [List.append_assoc]
  exact squeezeGo_keeps_aux hp hnp b a st

theorem replGo_creates {needle : List Char} (repl : List Char)
    (hne : needle ≠ []) : ∀ {s : List Char}, occursIn needle s = true →
    occursIn repl (replGo needle repl 0 s) = true := by
  intro s
  induction s with
  | nil =>
    intro h
    cases needle with
    | nil => exact absurd rfl hne
    | cons c t => simp [occursIn, leadsWith] at h
  | cons c t ih =>
    intro h
    simp only [occursIn, Bool.or_eq_true] at h
    by_cases hl : leadsWith needle (c :: t) = true
    · simp only [replGo, hl, if_true]
      exact occursIn_self_append repl _
    · simp only [replGo, hl, if_false]
      rcases h with h | h
      · exact absurd h hl
      · exact occursIn_cons c (ih h)

theorem dropWhile_keeps {p : List Char} (hp : p ≠ [])
    (hh : ∀ c, p.head? = some c → isPySpace c = false) {s : List Char}
    (h : occursIn p s = true) : occursIn p (s.dropWhile isPySpace) = true := by
  induction s with
  | nil => simpa using h
  | cons c t ih =>
    by_cases hc : isPySpace c = true
    · rw [List.dropWhile_cons_of_pos hc]
      simp only [occursIn, Bool.or_eq_true] at h
      rcases h with h | h
      · exfalso
        cases p with
        | nil => exact hp rfl
        | cons p0 p' =>
          simp only [leadsWith, Bool.and_eq_true, beq_iff_eq] at h
          have := hh p0 rfl
          rw [h.1] at this
          simp [hc] at this
      · exact ih h
    · rwa [List.dropWhile_cons_of_neg (by simpa using hc)]

theorem trimBoth_keeps {p : List Char} (hp : p ≠ [])
    (hh : ∀ c, p.head? = some c → isPySpace c = false)
    (hl : ∀ c, p.getLast? = some c → isPySpace c = false) {s : List Char}
    (h : occursIn p s = true) : occursIn p (trimBoth s) = true := by
  have h1 : occursIn p (trimLeft s) = true := dropWhile_keeps hp hh h
  have h2 : occursIn p.reverse (trimLeft s).reverse = true := occursIn_reverse h1
  have hrev : ∀ c, p.reverse.head? = some c → isPySpace c = false := by
    intro c hc
    exact hl c (by rwa [List.head?_reverse] at hc)
  have h3 : occursIn p.reverse ((trimLeft s).reverse.dropWhile isPySpace) = true :=
    dropWhile_keeps (by simpa using hp) hrev h2
  have h4 := occursIn_reverse h3
  simpa [trimBoth] using h4

/-! ## No-op lemmas for already-normalized text -/

theorem tidyFrom_squeeze_ws : ∀ (st : Bool) (t : List Char),
    tidyFrom st t = true → squeezeGo isPySpace st t = t := by
  intro st t
  induction t generalizing st with
  | nil => intro _; rfl
  | cons c l ih =>
    intro h
    simp only [tidyFrom] at h
    by_cases hc : isPySpace c = true
    · rw [if_pos hc] at h
      simp only [Bool.and_eq_true, beq_iff_eq, Bool.not_eq_true'] at h
      obtain ⟨⟨hsp, hst⟩, ht⟩ := h
      simp only [squeezeGo, hc, if_true, hst, Bool.false_eq_true, if_false]
      rw [ih true ht, hsp]
    · rw [if_neg hc] at h
      simp only [Bool.and_eq_true] at h
      simp only [squeezeGo, hc, Bool.false_eq_true, if_false]
      rw [ih false h.2]

theorem tidyFrom_squeeze_sp : ∀ (st : Bool) (t : List Char),
    tidyFrom st t = true → squeezeGo (· == ' ') st t = t := by
  intro st t
  induction t generalizing st with
  | nil => intro _; rfl
  | cons c l ih =>
    intro h
    simp only [tidyFrom] at h
    by_cases hc : isPySpace c = true
    · rw [if_pos hc] at h
      simp only [Bool.and_eq_true, beq_iff_eq, Bool.not_eq_true'] at h
      obtain ⟨⟨hsp, hst⟩, ht⟩ := h
      subst hsp
      simp only [squeezeGo, beq_self_eq_true, if_true, hst, Bool.false_eq_true,
        if_false]
      rw [ih true ht]
    · rw [if_neg hc] at h
      simp only [Bool.and_eq_true] at h
      have hcsp : (c == ' ') = false := by
        by_contra hne
        simp only [Bool.not_eq_false, beq_iff_eq] at hne
        subst hne
        simp [isPySpace] at hc
      simp only [squeezeGo, hcsp, Bool.false_eq_true, if_false]
      rw [ih false h.2]

theorem tidyFrom_kept : ∀ (st : Bool) (t : List Char),
    tidyFrom st t = true → ∀ c ∈ t, isKept c = true := by
  intro st t
  induction t generalizing st with
  | nil => intro _ c hc; simp at hc
  | cons c l ih =>
    intro h x hx
    simp only [tidyFrom] at h
    rcases List.mem_cons.mp hx with hx | hx
    · subst hx
      by_cases hc : isPySpace x = true
      · rw [if_pos hc] at h
        simp [isKept, hc]
      · rw [if_neg hc] at h
        simp only [Bool.and_eq_true] at h
        exact h.1
    · by_cases hc : isPySpace c = true
      · rw [if_pos hc] at h
        simp only [Bool.and_eq_true] at h
        exact ih true h.2 x hx
      · rw [if_neg hc] at h
        simp only [Bool.and_eq_true] at h
        exact ih false h.2 x hx

theorem stripChars_noop {t : List Char} (h : ∀ c ∈ t, isKept c = true) :
    stripChars t = t := by
  unfold stripChars
  have hcg : ∀ c ∈ t, (if isKept c then c else ' ') = id c := by
    intro c hc
    simp [h c hc]
  rw [List.map_congr_left hcg, List.map_id]

theorem trimLeft_noop {t : List Char}
    (h : ∀ c, t.head? = some c → isPySpace c = false) : trimLeft t = t := by
  cases t with
  | nil => rfl
  | cons c l =>
    unfold trimLeft
    rw [List.dropWhile_cons_of_neg (by simp [h c rfl])]

theorem trimBoth_noop {t : List Char}
    (hh : ∀ c, t.head? = some c → isPySpace c = false)
    (hl : ∀ c, t.getLast? = some c → isPySpace c = false) : trimBoth t = t := by
  unfold trimBoth
  rw [trimLeft_noop hh]
  have hdw : List.dropWhile isPySpace t.reverse = t.reverse := by
    cases ht : t.reverse with
    | nil => rfl
    | cons c l =>
      have hc : t.getLast? = some c := by
        rw [← List.head?_reverse, ht]; rfl
      exact List.dropWhile_cons_of_neg (by simp [hl c hc])
  rw [hdw, List.reverse_reverse]

/-! ## Capture-count lemmas for the engine -/

theorem mrun_caps_len : ∀ (re : RE), balancedG re = true →
    ∀ (prev : Option Char) (s : List Char), ∀ o ∈ mrun re prev s,
      o.caps.length = countGroups re := by
  intro re
  induction re with
  | lit cs =>
    intro _ prev s o ho
    simp only [mrun] at ho
    rcases hls : litStep false cs prev s with _ | pr
    · simp [hls] at ho
    · rw [hls] at ho
      cases pr
      simp only [List.mem_singleton] at ho
      subst ho
      rfl
  | litCI cs =>
    intro _ prev s o ho
    simp only [mrun] at ho
    rcases hls : litStep true cs prev s with _ | pr
    · simp [hls] at ho
    · rw [hls] at ho
      cases pr
      simp only [List.mem_singleton] at ho
      subst ho
      rfl
  | cls p =>
    intro _ prev s o ho
    cases s with
    | nil => simp [mrun] at ho
    | cons c t =>
      simp only [mrun] at ho
      by_cases hc : p c = true
      · rw [if_pos hc] at ho
        simp only [List.mem_singleton] at ho
        subst ho
        rfl
      · simp [hc] at ho
  | rep p lo hi =>
    intro _ prev s o ho
    simp only [mrun, List.mem_map] at ho
    obtain ⟨n, _, hn⟩ := ho
    subst hn
    rfl
  | seq a b iha ihb =>
    intro h prev s o ho
    simp only [balancedG, Bool.and_eq_true] at h
    simp only [mrun, List.mem_flatMap, List.mem_map] at ho
    obtain ⟨o1, ho1, o2, ho2, rfl⟩ := ho
    simp only [countGroups, List.length_append]
    rw [iha h.1 prev s o1 ho1, ihb h.2 o1.prev o1.rest o2 ho2]
  | alt a b iha ihb =>
    intro h prev s o ho
    simp only [balancedG, Bool.and_eq_true, beq_iff_eq] at h
    simp only [mrun, List.mem_append] at ho
    rcases ho with ho | ho
    · exact iha h.1.1 prev s o ho
    · rw [show countGroups (RE.alt a b) = countGroups a from rfl, h.2]
      exact ihb h.1.2 prev s o ho
  | opt a iha =>
    intro h prev s o ho
    simp only [balancedG, Bool.and_eq_true, beq_iff_eq] at h
    simp only [mrun, List.mem_append, List.mem_singleton] at ho
    rcases ho with ho | ho
    · rw [show countGroups (RE.opt a) = 0 from rfl, ← h.2]
      exact iha h.1 prev s o ho
    · subst ho
      rfl
  | grp a iha =>
    intro h prev s o ho
    simp only [mrun, List.mem_map] at ho
    obtain ⟨o1, ho1, rfl⟩ := ho
    simp only [countGroups, List.length_append]
    rw [iha h prev s o1 ho1]
    rfl
  | wb =>
    intro _ prev s o ho
    simp only [mrun] at ho
    split at ho
    · simp only [List.mem_singleton] at ho
      subst ho
      rfl
    · simp at ho

theorem reSearch_caps_len (re : RE) (h : balancedG re = true) :
    ∀ (s : List Char) (prev : Option Char) (hit : SearchHit),
      reSearch re prev s = some hit → hit.caps.length = countGroups re := by
  intro s
  induction s with
  | nil =>
    intro prev hit hh
    simp only [reSearch] at hh
    rcases hm : mrun re prev [] with _ | ⟨o, os⟩
    · simp [hm] at hh
    · rw [hm] at hh
      simp only [Option.some_inj] at hh
      subst hh
      exact mrun_caps_len re h prev [] o (by simp [hm])
  | cons c t ih =>
    intro prev hit hh
    simp only [reSearch] at hh
    rcases hm : mrun re prev (c :: t) with _ | ⟨o, os⟩
    · rw [hm] at hh
      exact ih (some c) hit hh
    · rw [hm] at hh
      simp only [Option.some_inj] at hh
      subst hh
      exact mrun_caps_len re h prev (c :: t) o (by simp [hm])

theorem refindGo_caps (re : RE) (h : balancedG re = true) :
    ∀ (fuel : Nat) (prev : Option Char) (s : List Char),
      ∀ m ∈ refindGo re fuel prev s, m.2.length = countGroups re := by
  intro fuel
  induction fuel with
  | zero => intro prev s m hm; simp [refindGo] at hm
  | succ fuel ih =>
    intro prev s m hm
    rcases hs : reSearch re prev s with _ | hit
    · simp [refindGo, hs] at hm
    · simp only [refindGo, hs] at hm
      have hcaps := reSearch_caps_len re h s prev hit hs
      by_cases hempty : hit.matched.isEmpty = true
      · rw [if_pos hempty] at hm
        rcases hr : hit.rest with _ | ⟨c, t⟩
        · rw [hr] at hm
          simp only [List.mem_singleton] at hm
          subst hm
          exact hcaps
        · rw [hr] at hm
          rcases List.mem_cons.mp hm with hm | hm
          · subst hm; exact hcaps
          · exact ih (some c) t m hm
      · rw [if_neg hempty] at hm
        rcases List.mem_cons.mp hm with hm | hm
        · subst hm; exact hcaps
        · exact ih hit.prevA hit.rest m hm

theorem findallCaps_len (re : RE) (h : balancedG re = true) (s : List Char) :
    ∀ caps ∈ findallCaps re s, caps.length = countGroups re := by
  intro caps hc
  simp only [findallCaps, findallL, List.mem_map] at hc
  obtain ⟨m, hm, rfl⟩ := hc
  exact refindGo_caps re h (s.length + 1) none s m hm

theorem date2_pairDiffs_nil (tl : List Char) (cy : Nat) :
    pairDiffs date2RE tl cy = [] := by
  unfold pairDiffs
  rw [List.filterMap_eq_nil_iff]
  intro caps hc
  have hlen : caps.length = 1 := by
    have := findallCaps_len date2RE (by rfl) tl caps hc
    simpa using this
  rcases caps with _ | ⟨a, _ | ⟨b, rest⟩⟩
  · simp at hlen
  · rfl
  · simp at hlen

theorem inferFromDates_skips_present (t : List Char) (cy : Nat) :
    inferFromDatesL t cy =
      maxIntD (pairDiffs date1RE (lowerL t) cy ++ pairDiffs date3RE (lowerL t) cy) := by
  show maxIntD ([date1RE, date2RE, date3RE].flatMap
      (fun re => pairDiffs re (lowerL t) cy)) = _
  rw [show [date1RE, date2RE, date3RE].flatMap
        (fun re => pairDiffs re (lowerL t) cy) =
      pairDiffs date1RE (lowerL t) cy ++ (pairDiffs date2RE (lowerL t) cy ++
        (pairDiffs date3RE (lowerL t) cy ++ [])) from rfl,
      date2_pairDiffs_nil]
  simp

/-! ## Claim theorems -/

/-- C3: the experience score satisfies, for every non-negative years value:
negative years gives 0.0; min_experience 0 with no preferred gives 0.5;
years equal to a positive required with no preferred gives exactly 0.7;
years at or above preferred (preferred > required ≥ 0) gives exactly 1.0;
years above required but below preferred adds bonus
min(0.3, (years-required)*0.05) to 0.7 capped at 1.0; years below a
positive required gives (years/required)*0.6. -/
theorem c3_experience_score_cases (y req : ℚ) (p : Option ℚ) :
    (y < 0 → score_experience y req p = 0) ∧
    (0 ≤ y → req = 0 → p = none → score_experience y req p = 1/2) ∧
    (0 < req → y = req → p = none → score_experience y req p = 7/10) ∧
    (∀ pv, p = some pv → 0 ≤ req → req < pv → pv ≤ y →
      score_experience y req p = 1) ∧
    (∀ pv, p = some pv → 0 ≤ req → req < y → y < pv →
      score_experience y req p =
        min 1 (7/10 + min (3/10) ((y - req) * (1/20)))) ∧
    (0 ≤ y → y < req → score_experience y req p = y / req * (3/5)) := by
  refine ⟨?_, ?_, ?_, ?_, ?_, ?_⟩
  · intro hy
    rw [score_experience, if_pos hy]
  · intro hy hreq hp
    subst hp
    rw [score_experience, if_neg (by linarith), if_pos (by simp [hreq, qTruthy])]
  · intro hreq hy hp
    subst hp hy
    rw [score_experience, if_neg (by linarith),
      if_neg (by simp [qTruthy]; intro h; linarith),
      if_pos le_rfl, if_neg (by simp [qTruthy]), if_neg (by simp)]
  · intro pv hp hreq hlt hle
    subst hp
    have hpv : pv ≠ 0 := by intro h; rw [h] at hlt; linarith
    rw [score_experience, if_neg (by push_neg; linarith),
      if_neg (by simp [qTruthy, hpv]),
      if_pos (by linarith),
      if_pos (by simp [qTruthy, hpv, Option.getD]; linarith)]
  · intro pv hp hreq hlt hgt
    subst hp
    have hpv : pv ≠ 0 := by intro h; rw [h] at hgt; linarith
    rw [score_experience, if_neg (by push_neg; linarith),
      if_neg (by simp [qTruthy, hpv]),
      if_pos (by linarith),
      if_neg (by simp [qTruthy, hpv, Option.getD]; linarith),
      if_pos hlt]
  · intro hy hlt
    have hreq : 0 < req := by linarith
    rw [score_experience, if_neg (by push_neg; linarith),
      if_neg (by intro h; linarith [h.1]),
      if_neg (by push_neg; linarith), if_pos hreq]

/-- Concrete instances of C3: exactly meeting a positive requirement with no
preferred level scores 0.7, and meeting the preferred level scores 1.0. -/
theorem c3_witness :
    score_experience 2 2 none = 7/10 ∧ score_experience 6 2 (some 5) = 1 :=
  ⟨(c3_experience_score_cases 2 2 none).2.2.1 (by norm_num) rfl rfl,
   (c3_experience_score_cases 6 2 (some 5)).2.2.2.1 5 rfl (by norm_num)
     (by norm_num) (by norm_num)⟩

theorem reqSkillSet_card_pos {l : List String} (h : l ≠ []) :
    0 < (reqSkillSet l).card := by
  cases l with
  | nil => exact absurd rfl h
  | cons x t =>
    refine Finset.card_pos.mpr ⟨normSkill x, ?_⟩
    simp [reqSkillSet]

theorem skills_ratio_le_one (A R : Finset String) (h : 0 < R.card) :
    ((A ∩ R).card : ℚ) / (R.card : ℚ) ≤ 1 := by
  rw [div_le_one (by exact_mod_cast h)]
  exact_mod_cast Finset.card_le_card (Finset.inter_subset_right)

theorem skills_req_only (rs : List (String × List String)) {req : List String}
    (h1 : req ≠ []) : score_skills_match rs req [] =
      ((resumeSkillSet rs ∩ reqSkillSet req).card : ℚ) /
        ((reqSkillSet req).card : ℚ) := by
  have hreq : 0 < (reqSkillSet req).card := reqSkillSet_card_pos h1
  have hnice : (reqSkillSet ([] : List String)).card = 0 := rfl
  simp only [score_skills_match]
  rw [if_neg (by simp [List.isEmpty_iff, h1]),
    if_neg (show ¬(0 < (reqSkillSet req).card ∧
        0 < (reqSkillSet ([] : List String)).card) from
      fun hc => by rw [hnice] at hc; exact lt_irrefl 0 hc.2),
    if_pos hreq, if_pos hreq]
  exact min_eq_left (skills_ratio_le_one _ _ hreq)

/-- C4: the skills score equals 0.5 when both requirement sets are empty;
the required-match ratio alone when only required skills are given; the
clamped 0.8/0.2 mix when both sets are non-empty; it never exceeds 1.0; and
matching is case-insensitive and trimmed, so required ["Python","SQL"]
against a resume containing only "python" scores exactly 0.5. -/
theorem c4_skills_score_cases (rs : List (String × List String))
    (req nice : List String) :
    (req = [] → nice = [] → score_skills_match rs req nice = 1/2) ∧
    (req ≠ [] → nice = [] → score_skills_match rs req nice =
      ((resumeSkillSet rs ∩ reqSkillSet req).card : ℚ) /
        ((reqSkillSet req).card : ℚ)) ∧
    (req ≠ [] → nice ≠ [] → score_skills_match rs req nice =
      min (((resumeSkillSet rs ∩ reqSkillSet req).card : ℚ) /
            ((reqSkillSet req).card : ℚ) * (4/5) +
           ((resumeSkillSet rs ∩ reqSkillSet nice).card : ℚ) /
            ((reqSkillSet nice).card : ℚ) * (1/5)) 1) ∧
    score_skills_match rs req nice ≤ 1 ∧
    score_skills_match [("programming", ["python"])] ["Python", "SQL"] [] = 1/2 := by
  refine ⟨?_, ?_, ?_, ?_, ?_⟩
  · intro h1 h2
    subst h1 h2
    rfl
  · intro h1 h2
    subst h2
    exact skills_req_only rs h1
  · intro h1 h2
    have hreq : 0 < (reqSkillSet req).card := reqSkillSet_card_pos h1
    have hnice : 0 < (reqSkillSet nice).card := reqSkillSet_card_pos h2
    simp only [score_skills_match]
    rw [if_neg (by simp [List.isEmpty_iff, h1]),
      if_pos ⟨hreq, hnice⟩, if_pos hreq, if_pos hnice]
  · simp only [score_skills_match]
    by_cases h : (req.isEmpty && nice.isEmpty) = true
    · rw [if_pos h]; norm_num
    · rw [if_neg h]
      exact min_le_right _ 1
  · have h2 := skills_req_only [("programming", ["python"])]
      (show ["Python", "SQL"] ≠ [] by simp)
    rw [h2]
    have hint : ((resumeSkillSet [("programming", ["python"])] ∩
        reqSkillSet ["Python", "SQL"]).card) = 1 := by decide
    have hcard : ((reqSkillSet ["Python", "SQL"]).card) = 2 := by decide
    rw [hint, hcard]
    norm_num

/-- C10: adding a skill matching a required skill to an otherwise-unchanged
resume skill record never decreases the skills score. -/
theorem c10_skills_monotone (rs : List (String × List String))
    (req nice : List String) (c s : String)
    (h : normSkill s ∈ reqSkillSet req) :
    score_skills_match rs req nice ≤ score_skills_match (addSkillTo c s rs) req nice := by
  have hsub : resumeSkillSet rs ⊆ resumeSkillSet (addSkillTo c s rs) := by
    intro x hx
    simp only [resumeSkillSet, List.mem_toFinset, List.mem_map] at hx ⊢
    obtain ⟨y, hy, rfl⟩ := hx
    refine ⟨y, ?_, rfl⟩
    simp only [List.mem_flatMap] at hy ⊢
    obtain ⟨ct, hct, hyct⟩ := hy
    by_cases hc : ct.1 = c
    · refine ⟨(ct.1, s :: ct.2), ?_, List.mem_cons_of_mem s hyct⟩
      simpa [addSkillTo, hc] using List.mem_map_of_mem
        (fun ct => if ct.1 = c then (ct.1, s :: ct.2) else ct) hct
    · refine ⟨ct, ?_, hyct⟩
      simpa [addSkillTo, hc] using List.mem_map_of_mem
        (fun ct => if ct.1 = c then (ct.1, s :: ct.2) else ct) hct
  have hcard : ∀ R : Finset String,
      ((resumeSkillSet rs ∩ R).card : ℚ) ≤
        ((resumeSkillSet (addSkillTo c s rs) ∩ R).card : ℚ) := by
    intro R
    exact_mod_cast Finset.card_le_card
      (Finset.inter_subset_inter hsub (Finset.Subset.refl R))
  have hratio : ∀ R : Finset String,
      ((resumeSkillSet rs ∩ R).card : ℚ) / (R.card : ℚ) ≤
        ((resumeSkillSet (addSkillTo c s rs) ∩ R).card : ℚ) / (R.card : ℚ) := by
    intro R
    rcases Nat.eq_zero_or_pos R.card with hR | hR
    · rw [hR]; norm_num
    · exact (div_le_div_iff_of_pos_right (by exact_mod_cast hR)).mpr (hcard R)
  simp only [score_skills_match]
  by_cases hemp : (req.isEmpty && nice.isEmpty) = true
  · rw [if_pos hemp, if_pos hemp]
  · rw [if_neg hemp, if_neg hemp]
    have hQ := hratio (reqSkillSet req)
    have hN := hratio (reqSkillSet nice)
    refine min_le_min ?_ le_rfl
    by_cases h1 : 0 < (reqSkillSet req).card <;>
      by_cases h2 : 0 < (reqSkillSet nice).card <;>
        simp only [if_pos, if_neg, h1, h2, and_true, and_false, if_true,
          if_false, true_and, false_and] <;> try linarith

/-- Concrete instance of C10: adding the matching skill "python" raises the
skills score from 0 to 1/2 and in particular does not lower it. -/
theorem c10_witness :
    normSkill "python" ∈ reqSkillSet ["Python", "SQL"] ∧
    score_skills_match [("programming", [])] ["Python", "SQL"] [] ≤
      score_skills_match (addSkillTo "programming" "python"
        [("programming", [])]) ["Python", "SQL"] [] :=
  ⟨by decide,
   c10_skills_monotone [("programming", [])] ["Python", "SQL"] []
     "programming" "python" (by decide)⟩

/-- C7: the recommendation is always one of the five fixed strings;
"Unable to Evaluate" (with the all-zero result) exactly when the processed
resume is absent/falsy, and otherwise the threshold strings at 0.8 / 0.6 /
0.4 on the overall score. -/
theorem c7_recommendation_cases (pd : Option ProcessedResume)
    (jr : Option JobRequirements) :
    ((calculate_overall_score pd jr).recommendation ∈
      ["Strong Candidate - Recommend for Interview",
       "Good Candidate - Consider for Interview",
       "Moderate Candidate - Review Carefully",
       "Weak Candidate - Consider Rejection",
       "Unable to Evaluate"]) ∧
    ((calculate_overall_score pd jr).recommendation = "Unable to Evaluate" ↔
      pd = none) ∧
    (pd = none → calculate_overall_score pd jr = emptyScoreResult) ∧
    (∀ d, pd = some d →
      (4/5 ≤ (calculate_overall_score pd jr).overall_score →
        (calculate_overall_score pd jr).recommendation =
          "Strong Candidate - Recommend for Interview") ∧
      (3/5 ≤ (calculate_overall_score pd jr).overall_score →
        (calculate_overall_score pd jr).overall_score < 4/5 →
        (calculate_overall_score pd jr).recommendation =
          "Good Candidate - Consider for Interview") ∧
      (2/5 ≤ (calculate_overall_score pd jr).overall_score →
        (calculate_overall_score pd jr).overall_score < 3/5 →
        (calculate_overall_score pd jr).recommendation =
          "Moderate Candidate - Review Carefully") ∧
      ((calculate_overall_score pd jr).overall_score < 2/5 →
        (calculate_overall_score pd jr).recommendation =
          "Weak Candidate - Consider Rejection")) := by
  cases pd with
  | none =>
    refine ⟨by simp [calculate_overall_score, emptyScoreResult], ?_, ?_, ?_⟩
    · simp [calculate_overall_score, emptyScoreResult]
    · intro _; rfl
    · intro d hd; cases hd
  | some d =>
    have hrec : (calculate_overall_score (some d) jr).recommendation =
        getRecommendation ((calculate_overall_score (some d) jr).overall_score) := rfl
    refine ⟨?_, ?_, ?_, ?_⟩
    · rw [hrec, getRecommendation]
      split_ifs <;> simp
    · rw [hrec, getRecommendation]
      constructor
      · intro hctr
        split_ifs at hctr <;> simp at hctr
      · intro hctr; cases hctr
    · intro hctr; cases hctr
    · intro e he
      refine ⟨?_, ?_, ?_, ?_⟩
      · intro h1
        rw [hrec, getRecommendation, if_pos h1]
      · intro h1 h2
        rw [hrec, getRecommendation, if_neg (by linarith), if_pos h1]
      · intro h1 h2
        rw [hrec, getRecommendation, if_neg (by linarith),
          if_neg (by linarith), if_pos h1]
      · intro h1
        rw [hrec, getRecommendation, if_neg (by linarith),
          if_neg (by linarith), if_neg (by linarith)]

/-- Concrete instance of C7: the all-empty processed record scores in the
moderate band, and an absent record yields the error result. -/
theorem c7_witness :
    ((calculate_overall_score (some emptyProcessed) none).recommendation ∈
      ["Strong Candidate - Recommend for Interview",
       "Good Candidate - Consider for Interview",
       "Moderate Candidate - Review Carefully",
       "Weak Candidate - Consider Rejection",
       "Unable to Evaluate"]) ∧
    (calculate_overall_score none none = emptyScoreResult) :=
  ⟨(c7_recommendation_cases (some emptyProcessed) none).1,
   (c7_recommendation_cases none none).2.2.1 rfl⟩

theorem empty_skills_score : score_skills_match ([] : List (String × List String)) [] [] = 1/2 := rfl

theorem empty_experience_score : score_experience ((0 : Int) : ℚ) 0 none = 1/2 := by
  rw [score_experience, if_neg (by norm_num),
    if_pos ⟨by norm_num, by simp [qTruthy]⟩]

theorem empty_education_score :
    score_education ⟨false, none, []⟩ none none = 3/5 := by
  simp [score_education, sTruthy]

theorem empty_quality_score : score_resume_quality emptyProcessed = 1/10 := by
  rw [score_resume_quality, if_pos (by norm_num [emptyProcessed])]

theorem empty_overall_score :
    (calculate_overall_score (some emptyProcessed) none).overall_score = 23/50 := by
  show score_skills_match ([] : List (String × List String)) [] [] * (2/5) +
      score_experience ((0 : Int) : ℚ) 0 none * (1/4) +
      score_education ⟨false, none, []⟩ none none * (1/5) +
      score_resume_quality emptyProcessed * (3/20) = 23/50
  rw [empty_skills_score, empty_experience_score, empty_education_score,
    empty_quality_score]
  norm_num

/-- C1: processing the empty extraction result yields the all-empty
ProcessedResume, and scoring it with no job requirements gives component
scores 0.5 (skills), 0.5 (experience), 0.6 (education), 0.1 (quality),
overall exactly 0.46 = 23/50, and recommendation
"Moderate Candidate - Review Carefully". -/
theorem c1_empty_extraction_scoring :
    (∀ (ner : Option NerFn) (currentYear : Nat),
      process_resume ner currentYear "" = emptyProcessed) ∧
    (calculate_overall_score (some emptyProcessed) none).skills_match = 1/2 ∧
    (calculate_overall_score (some emptyProcessed) none).experience_years = 1/2 ∧
    (calculate_overall_score (some emptyProcessed) none).education = 3/5 ∧
    (calculate_overall_score (some emptyProcessed) none).resume_quality = 1/10 ∧
    (calculate_overall_score (some emptyProcessed) none).overall_score = 23/50 ∧
    (calculate_overall_score (some emptyProcessed) none).recommendation =
      "Moderate Candidate - Review Carefully" := by
  refine ⟨fun ner currentYear => rfl, empty_skills_score,
    empty_experience_score, empty_education_score, empty_quality_score,
    empty_overall_score, ?_⟩
  show getRecommendation
    ((calculate_overall_score (some emptyProcessed) none).overall_score) = _
  rw [empty_overall_score, getRecommendation, if_neg (by norm_num),
    if_neg (by norm_num), if_pos (by norm_num)]

/-- Concrete instance of C1 at an arbitrary capability value. -/
theorem c1_witness : process_resume none 2026 "" = emptyProcessed :=
  c1_empty_extraction_scoring.1 none 2026

/-- Concrete instance of C4's required-only branch. -/
theorem c4_witness :
    score_skills_match [] ["Python"] [] =
      ((resumeSkillSet [] ∩ reqSkillSet ["Python"]).card : ℚ) /
        ((reqSkillSet ["Python"]).card : ℚ) :=
  (c4_skills_score_cases [] ["Python"] []).2.1 (by simp) rfl

/-- C8: on "Call me at (415) 555-2671 or 415.555.2672" the international
pattern finds nothing, the parenthesized-US pattern is the first to match
(its matches are the parenthesized number and the dotted number), and the
returned phone is the first of those matches; the dotted candidate is never
the result. -/
theorem c8_phone_first_pattern :
    findallMatches phone0RE "Call me at (415) 555-2671 or 415.555.2672".data = [] ∧
    findallMatches phone1RE "Call me at (415) 555-2671 or 415.555.2672".data =
      ["(415) 555-2671".data, "415.555.2672".data] ∧
    firstPhoneMatches contactPhoneREs
        "Call me at (415) 555-2671 or 415.555.2672".data =
      ["(415) 555-2671".data, "415.555.2672".data] ∧
    (extract_contact_info "Call me at (415) 555-2671 or 415.555.2672").phone =
      some "(415) 555-2671" := by
  refine ⟨by decide, by decide, by decide, by decide⟩

/-- C6 fails as stated: for the unsupported extension "txt" the internal
dispatch raises the ValueError naming the extension, but `parse_resume`'s
catch-all handler swallows it and the caller receives the empty string —
indistinguishable from a successful parse of an empty document — so no
error is signaled to the caller. -/
theorem c6_counterexample :
    parse_resume "resume.txt" "some text" "other text" = "" ∧
    parse_resume_attempt "resume.txt" "some text" "other text" =
      Except.error "Unsupported file format: txt" ∧
    parse_resume "resume.txt" "some text" "other text" =
      parse_resume "empty.pdf" "" "docx body" := by
  refine ⟨by rfl, by rfl, by rfl⟩

/-- C6 amended: for every filename whose (lower-cased, last-dot) extension
is not pdf, docx or doc, the internal parse attempt fails with the
ValueError message naming the extension, and the caller-facing
`parse_resume` returns the empty string (no partial result, but also no
error value). -/
theorem c6_amended (name pdfText docxText : String)
    (h : extOf name ∉ (["pdf", "docx", "doc"] : List String)) :
    parse_resume_attempt name pdfText docxText =
      Except.error ("Unsupported file format: " ++ extOf name) ∧
    parse_resume name pdfText docxText = "" := by
  simp only [List.mem_cons, List.mem_singleton, not_or] at h
  obtain ⟨h1, h2, h3⟩ := h
  have hat : parse_resume_attempt name pdfText docxText =
      Except.error ("Unsupported file format: " ++ extOf name) := by
    rw [parse_resume_attempt, if_neg h1, if_neg (by tauto)]
  refine ⟨hat, ?_⟩
  rw [parse_resume, hat]

/-- Concrete instance of the amended C6 at extension "txt". -/
theorem c6_witness :
    extOf "resume.txt" ∉ (["pdf", "docx", "doc"] : List String) ∧
    parse_resume_attempt "resume.txt" "a" "b" =
      Except.error ("Unsupported file format: " ++ extOf "resume.txt") ∧
    parse_resume "resume.txt" "a" "b" = "" :=
  ⟨by decide, (c6_amended "resume.txt" "a" "b" (by decide)).1,
   (c6_amended "resume.txt" "a" "b" (by decide)).2⟩

/-- C5 fails as stated: on "2020-present" no explicit pattern matches and
the YYYY-present range contributes nothing (its single-group `findall`
fails the pair check), so the result is 0 although the claim's reading
(present treated as the current year 2026) demands 6; and on
"0 years experience, 2015-2019" the explicit patterns match (maximum 0),
yet the code still falls back to the date range and returns 4 instead of
the matched maximum 0. -/
theorem c5_counterexample :
    explicitYearsL (lowerL "2020-present".data) = [] ∧
    extractTotalYearsL "2020-present".data 2026 = 0 ∧
    (0 : Int) ≠ (2026 : Int) - 2020 ∧
    explicitYearsL (lowerL "0 years experience, 2015-2019".data) = [0, 0] ∧
    extractTotalYearsL "0 years experience, 2015-2019".data 2026 = 4 ∧
    (4 : Int) ≠ 0 := by
  refine ⟨by decide, by decide, by decide, by decide, by decide, by decide⟩

/-- C5 amended: the extraction returns the maximum integer matched by the
three explicit patterns whenever that maximum is positive; when no explicit
pattern matches, or the maximum is zero, it falls back to the date ranges;
and the date fallback takes the maximum end-minus-start difference over the
`YYYY-YYYY` and `Month YYYY - Month YYYY` patterns only — the
`YYYY-present/current` pattern contributes nothing because its single-group
matches fail the pair check. -/
theorem c5_amended (t : String) (cy : Nat) :
    (∀ y rest, explicitYearsL (lowerL t.data) = y :: rest →
      (maxNat1 y rest : Int) ≠ 0 →
      extractTotalYearsL t.data cy = (maxNat1 y rest : Int)) ∧
    (explicitYearsL (lowerL t.data) = [] →
      extractTotalYearsL t.data cy = inferFromDatesL t.data cy) ∧
    (∀ y rest, explicitYearsL (lowerL t.data) = y :: rest →
      (maxNat1 y rest : Int) = 0 →
      extractTotalYearsL t.data cy = inferFromDatesL t.data cy) ∧
    inferFromDatesL t.data cy =
      maxIntD (pairDiffs date1RE (lowerL t.data) cy ++
        pairDiffs date3RE (lowerL t.data) cy) := by
  refine ⟨?_, ?_, ?_, inferFromDates_skips_present t.data cy⟩
  · intro y rest hys hmax
    simp only [extractTotalYearsL, hys]
    rw [if_neg hmax]
  · intro hys
    simp only [extractTotalYearsL, hys]
    rfl
  · intro y rest hys hmax
    simp only [extractTotalYearsL, hys]
    rw [if_pos hmax]

/-- Concrete instances of the amended C5: an explicit "5 years experience"
mention wins with 5, and a bare date range yields its span difference. -/
theorem c5_witness :
    explicitYearsL (lowerL "5 years experience".data) = [5, 5] ∧
    extractTotalYearsL "5 years experience".data 2026 = 5 ∧
    explicitYearsL (lowerL "2015 - 2019".data) = [] ∧
    extractTotalYearsL "2015 - 2019".data 2026 =
      inferFromDatesL "2015 - 2019".data 2026 :=
  ⟨by decide,
   (c5_amended "5 years experience" 2026).1 5 [5] (by decide) (by decide),
   by decide,
   (c5_amended "2015 - 2019" 2026).2.1 (by decide)⟩

theorem edgeNonSp_ne {s : List Char} (h : edgeNonSp s = true) : s ≠ [] := by
  cases s with
  | nil => simp [edgeNonSp] at h
  | cons c t => simp

theorem edgeNonSp_head {s : List Char} (h : edgeNonSp s = true) :
    ∀ c, s.head? = some c → isPySpace c = false := by
  cases s with
  | nil => simp [edgeNonSp] at h
  | cons c t =>
    intro x hx
    simp only [List.head?_cons, Option.some_inj] at hx
    subst hx
    simp only [edgeNonSp, Bool.and_eq_true, Bool.not_eq_true'] at h
    exact h.1

theorem edgeNonSp_last {s : List Char} (h : edgeNonSp s = true) :
    ∀ c, s.getLast? = some c → isPySpace c = false := by
  cases s with
  | nil => simp [edgeNonSp] at h
  | cons c t =>
    intro x hx
    simp only [edgeNonSp, Bool.and_eq_true, Bool.not_eq_true'] at h
    have hd : (c :: t).getLastD c = x := by
      rw [List.getLastD_eq_getLast?, hx]
      rfl
    rw [← hd]
    exact h.2

/-- C2 fails as stated: in
"https://a.com https://a.com/x" both URLs are found and protected, but the
all-occurrences `str.replace` used by the protection step replaces the
prefix URL inside the longer one, so the longer protected span
"https://a.com/x" does not appear in the normalizer's output (its "/x"
tail is stripped to " x"). -/
theorem c2_counterexample :
    "https://a.com/x".data ∈
      (protectPhase "https://a.com https://a.com/x".data).2.map Prod.snd ∧
    cleanTextL "https://a.com https://a.com/x".data =
      "https://a.com https://a.com x".data ∧
    occursIn "https://a.com/x".data
      (cleanTextL "https://a.com https://a.com/x".data) = false := by
  refine ⟨by decide, by decide, by decide⟩

/-- C2 amended: a protected span appears verbatim in the output whenever it
is the only span the protection phase records and its placeholder is intact
in the protected text (the counterexample shows how several textually
overlapping spans can break placeholder integrity through the
all-occurrences replace). -/
theorem c2_amended (t : String) (ph s t1 : List Char)
    (hprot : protectPhase t.data = (t1, [(ph, s)]))
    (hph : ph ≠ [])
    (hkept : ph.all keptNonSp = true)
    (hocc : occursIn ph t1 = true)
    (hs : edgeNonSp s = true) :
    occursIn s (cleanTextL t.data) = true := by
  have hnosp : ∀ c ∈ ph, isPySpace c = false := by
    intro c hc
    have := List.all_eq_true.mp hkept c hc
    simp only [keptNonSp, Bool.and_eq_true, Bool.not_eq_true'] at this
    exact this.2
  have hkc : ∀ c ∈ ph, isKept c = true := by
    intro c hc
    have := List.all_eq_true.mp hkept c hc
    simp only [keptNonSp, Bool.and_eq_true] at this
    exact this.1
  by_cases hemp : t.data.isEmpty = true
  · exfalso
    have ht : t.data = [] := by simpa [List.isEmpty_iff] using hemp
    rw [ht] at hprot
    have : protectPhase ([] : List Char) = ([], []) := rfl
    rw [this] at hprot
    exact absurd (congrArg Prod.snd hprot) (by simp)
  · rw [cleanTextL, if_neg hemp]
    simp only [cleanCore, hprot]
    have hrest : restoreSpans [(ph, s)]
        (collapseSp (stripChars (collapseWs t1))) =
        replaceAll ph s (collapseSp (stripChars (collapseWs t1))) := rfl
    rw [hrest]
    have o1 : occursIn ph (collapseWs t1) = true :=
      squeezeGo_keeps hph hnosp false hocc
    have o2 : occursIn ph (stripChars (collapseWs t1)) = true := by
      have hmap := occursIn_map (fun c => if isKept c then c else ' ') o1
      have hfix : ph.map (fun c => if isKept c then c else ' ') = ph := by
        have hcg : ∀ c ∈ ph, (if isKept c then c else ' ') = id c := by
          intro c hc
          simp [hkc c hc]
        rw [List.map_congr_left hcg, List.map_id]
      rw [hfix] at hmap
      exact hmap
    have o3 : occursIn ph (collapseSp (stripChars (collapseWs t1))) = true := by
      refine squeezeGo_keeps hph ?_ false o2
      intro c hc
      have := hnosp c hc
      by_contra hne
      simp only [Bool.not_eq_false, beq_iff_eq] at hne
      subst hne
      simp [isPySpace] at this
    have o4 : occursIn s
        (replaceAll ph s (collapseSp (stripChars (collapseWs t1)))) = true := by
      cases hphc : ph with
      | nil => exact absurd hphc hph
      | cons p0 ptl =>
        rw [replaceAll]
        rw [hphc] at o3
        exact replGo_creates s (by simp) o3
    exact trimBoth_keeps (edgeNonSp_ne hs) (edgeNonSp_head hs)
      (edgeNonSp_last hs) o4

/-- Concrete instance of the amended C2: a lone email between plain words
is protected and restored verbatim. -/
theorem c2_witness :
    protectPhase "hi a@b.co yo".data =
      ("hi __EMAIL_0__ yo".data, [("__EMAIL_0__".data, "a@b.co".data)]) ∧
    occursIn "a@b.co".data (cleanTextL "hi a@b.co yo".data) = true :=
  ⟨by decide,
   c2_amended "hi a@b.co yo" "__EMAIL_0__".data "a@b.co".data
     "hi __EMAIL_0__ yo".data (by decide) (by decide) (by decide) (by decide)
     (by decide)⟩

/-- C9 fails as stated: normalization is not idempotent.  For the input
"a@b.co|__EMAIL_0__" (which contains literal placeholder-shaped text) the
first normalization yields "a@b.co|a@b.co|" and the second normalization
changes that again to "a@b.co|a@b.co". -/
theorem c9_counterexample :
    cleanTextL "a@b.co|__EMAIL_0__".data = "a@b.co|a@b.co|".data ∧
    cleanTextL (cleanTextL "a@b.co|__EMAIL_0__".data) =
      "a@b.co|a@b.co".data ∧
    cleanTextL (cleanTextL "a@b.co|__EMAIL_0__".data) ≠
      cleanTextL "a@b.co|__EMAIL_0__".data := by
  refine ⟨by decide, by decide, by decide⟩

/-- C9 amended: normalization fixes any text that is already in normal form
— only kept characters, single plain spaces, no edge whitespace — and in
which the protection phase finds nothing; on such texts it is idempotent.
On arbitrary inputs idempotence fails, as the counterexample shows. -/
theorem c9_amended (t : String)
    (hprot : protectPhase t.data = (t.data, []))
    (htidy : tidy t.data = true) :
    cleanTextL t.data = t.data ∧
    cleanTextL (cleanTextL t.data) = cleanTextL t.data := by
  simp only [tidy, Bool.and_eq_true] at htidy
  obtain ⟨⟨h1, h2⟩, h3⟩ := htidy
  have hmain : cleanTextL t.data = t.data := by
    by_cases hemp : t.data.isEmpty = true
    · rw [cleanTextL, if_pos hemp]
      have ht : t.data = [] := by simpa [List.isEmpty_iff] using hemp
      exact ht.symm
    · rw [cleanTextL, if_neg hemp]
      simp only [cleanCore, hprot]
      have hr : restoreSpans ([] : List (List Char × List Char))
          (collapseSp (stripChars (collapseWs t.data))) =
          collapseSp (stripChars (collapseWs t.data)) := rfl
      rw [hr, show collapseWs t.data = t.data from tidyFrom_squeeze_ws false t.data h1,
        stripChars_noop (tidyFrom_kept false t.data h1),
        show collapseSp t.data = t.data from tidyFrom_squeeze_sp false t.data h1]
      refine trimBoth_noop ?_ ?_
      · intro c hc
        cases hd : t.data with
        | nil => rw [hd] at hc; simp at hc
        | cons c' l =>
          rw [hd] at hc h2
          simp only [List.head?_cons, Option.some_inj] at hc
          subst hc
          simpa using h2
      · intro c hc
        rw [hc] at h3
        simpa using h3
  exact ⟨hmain, by rw [hmain]; exact hmain⟩

/-- Concrete instance of the amended C9: a plain sentence is fixed by
normalization, hence normalizing twice changes nothing. -/
theorem c9_witness :
    cleanTextL "Hello World".data = "Hello World".data ∧
    cleanTextL (cleanTextL "Hello World".data) = cleanTextL "Hello World".data :=
  c9_amended "Hello World" (by decide) (by decide)

end RA
